import Mathlib

/-!
Verification of the oss-review license/advisory classification core.

This file shallowly embeds the pure parts of the repository's license audit
tool (`packages/mcp/tools/licenses.ts`), the advisory aggregation utilities
(`packages/advisory/index.ts`, `packages/advisory/npm.ts`), the ignore-rule
resolution of the security tool (`packages/mcp/tools/security.ts`), and the
configuration accessors (`packages/config/index.ts`).

Conventions used throughout:
* JavaScript `Map` objects are embedded as association lists (`JsMap`) whose
  `jsSet` replaces an existing key in place (preserving first-insertion order,
  exactly like `Map.prototype.set`) and whose `jsGet` returns the stored value.
* JavaScript strings are Lean `String`s; falsy string checks (`if (!s)`)
  become emptiness checks, `??`/optional fields become `Option`.
* I/O boundaries (file reads, `JSON.parse`, `Date`, spawned processes) are
  passed in as explicit function arguments, so the embedded functions stay
  pure while following the source control flow statement by statement.
-/

/-! ## JavaScript `Map` embedding -/

/-- Association-list embedding of a JavaScript `Map` with string keys. -/
abbrev JsMap (α : Type) := List (String × α)

/-- `Map.prototype.get`: first (and, for maps built with `jsSet`, only)
binding of the key. -/
def jsGet {α : Type} (m : JsMap α) (k : String) : Option α :=
  (m.find? (fun p => p.1 == k)).map (fun p => p.2)

/-- `Map.prototype.set`: update the existing binding in place, otherwise
append a fresh binding (JavaScript maps keep insertion order, and a map
never holds two bindings for one key). -/
def jsSet {α : Type} : JsMap α → String → α → JsMap α
  | [], k, v => [(k, v)]
  | p :: t, k, v => if p.1 == k then (k, v) :: t else p :: jsSet t k v

/-- `Map.prototype.values` as a list in iteration order. -/
def jsValues {α : Type} (m : JsMap α) : List α :=
  m.map (fun p => p.2)

/-- Fold a list of key/value pairs into a map with `jsSet`. -/
def insList {α : Type} (m : JsMap α) (l : List (String × α)) : JsMap α :=
  l.foldl (fun m p => jsSet m p.1 p.2) m

/-- Last binding for `k` in a plain list of pairs (the value `jsSet` folds
leave behind for that key). -/
def lastFind {α : Type} (l : List (String × α)) (k : String) : Option α :=
  (l.reverse.find? (fun p => p.1 == k)).map (fun p => p.2)

/-- Option fallback (`a ?? b` restricted to options). -/
def optOr {α : Type} (a b : Option α) : Option α :=
  match a with
  | some x => some x
  | none => b

/-! ## JavaScript string primitives

The license ids, advisory ids and package names handled by the repository are
ASCII, so `String.prototype.toUpperCase` / `toLowerCase` are embedded as
ASCII case maps and `String.prototype.trim` as stripping the usual
whitespace characters. (These are defined on the underlying character lists
so that concrete instances evaluate by `decide`.) -/

/-- ASCII upper-casing of one character. -/
def asciiUpperChar (c : Char) : Char :=
  if 'a' ≤ c ∧ c ≤ 'z' then Char.ofNat (c.toNat - 32) else c

/-- ASCII lower-casing of one character. -/
def asciiLowerChar (c : Char) : Char :=
  if 'A' ≤ c ∧ c ≤ 'Z' then Char.ofNat (c.toNat + 32) else c

/-- `String.prototype.toUpperCase` (ASCII fragment). -/
def jsToUpper (s : String) : String := ⟨s.data.map asciiUpperChar⟩

/-- `String.prototype.toLowerCase` (ASCII fragment). -/
def jsToLower (s : String) : String := ⟨s.data.map asciiLowerChar⟩

/-- Whitespace stripped by `String.prototype.trim`. -/
def isJsSpace (c : Char) : Bool := c = ' ' ∨ c = '\t' ∨ c = '\n' ∨ c = '\r'

/-- `String.prototype.trim`. -/
def jsTrim (s : String) : String :=
  ⟨((s.data.dropWhile isJsSpace).reverse.dropWhile isJsSpace).reverse⟩

/-! ## License policy model (`packages/config/index.ts` types) -/

/-- The three policy buckets (`LicenseCategory` in `packages/config`). -/
inductive LicenseCategory where
  | green
  | yellow
  | red
deriving DecidableEq, Repr

/-- One policy entry (`LicenseEntry` in `packages/config`). -/
structure LicenseEntry where
  id : String
  name : Option String := none
  notes : Option String := none
  url : Option String := none
deriving DecidableEq, Repr

/-- The three bucket lists handed to `buildLicenseIndex`
(`entries[category] ?? []` for each category). -/
structure LicenseBuckets where
  green : List LicenseEntry := []
  yellow : List LicenseEntry := []
  red : List LicenseEntry := []
deriving DecidableEq, Repr

/-! ## License audit tool (`packages/mcp/tools/licenses.ts`) -/

/-- Classification outcomes of the license audit (`Classification`). -/
inductive Classification where
  | green
  | yellow
  | red
  | unknown
  | unlicensed
deriving DecidableEq, Repr

/-- `normalizeLicenseId`: `value.trim().toUpperCase()`. -/
def normalizeLicenseId (value : String) : String :=
  jsToUpper (jsTrim value)

/-- `LicensePolicyIndex`: map from normalized id/name to category and source
entry. -/
structure LicensePolicyIndex where
  entries : JsMap (LicenseCategory × LicenseEntry)
deriving DecidableEq, Repr

/-- Bucket list selected for one category inside `buildLicenseIndex`. -/
def bucketEntries (b : LicenseBuckets) (category : LicenseCategory) : List LicenseEntry :=
  match category with
  | .green => b.green
  | .yellow => b.yellow
  | .red => b.red

/-- Body of the `buildLicenseIndex` loop for a single entry: skip falsy ids,
insert by normalized id, and additionally by normalized display name when
present. -/
def insertLicenseEntry (category : LicenseCategory)
    (m : JsMap (LicenseCategory × LicenseEntry)) (entry : LicenseEntry) :
    JsMap (LicenseCategory × LicenseEntry) :=
  if entry.id = "" then m
  else
    let m := jsSet m (normalizeLicenseId entry.id) (category, entry)
    match entry.name with
    | some n => if n = "" then m else jsSet m (normalizeLicenseId n) (category, entry)
    | none => m

/-- `buildLicenseIndex`: iterate the buckets in the fixed order green, yellow,
red, inserting each entry under its normalized id and name. -/
def buildLicenseIndex (b : LicenseBuckets) : LicensePolicyIndex :=
  ⟨[LicenseCategory.green, LicenseCategory.yellow, LicenseCategory.red].foldl
    (fun m category => (bucketEntries b category).foldl (insertLicenseEntry category) m) []⟩

/-- Component fields carried by an SBOM analysis entry (`entry.component`).
The `componentType` field embeds the source's `type` field. -/
structure BomComponent where
  bomRef : Option String := none
  name : Option String := none
  version : Option String := none
  componentType : Option String := none
  purl : Option String := none
deriving DecidableEq, Repr

/-- One SBOM analysis entry consumed by `analyzeWithPolicy`
(an element of `analyzeBom(...).entries`). -/
structure BomEntry where
  key : String
  component : BomComponent := {}
  licenses : List String := []
deriving DecidableEq, Repr

/-- One element of `matchedLicences`; `category = none` embeds the literal
string `'unknown'` used for unmatched tokens. -/
structure LicenseMatch where
  license : String
  category : Option LicenseCategory := none
  notes : Option String := none
deriving DecidableEq, Repr

/-- Per-component audit report (`ComponentReport`). -/
structure ComponentReport where
  ref : String
  name : String
  version : Option String := none
  componentType : Option String := none
  purl : Option String := none
  licenses : List String := []
  classification : Classification
  matchedLicences : List LicenseMatch := []
deriving DecidableEq, Repr

/-- Mutable locals of the per-entry scan loop in `analyzeWithPolicy`:
`classification`, `failReason`, `hasGreen`, `hasUnknown`, `matchedLicences`. -/
structure ScanState where
  classification : Classification := .green
  failReason : Option String := none
  hasGreen : Bool := false
  hasUnknown : Bool := false
  matched : List LicenseMatch := []
deriving DecidableEq, Repr

/-- The `for (const license of normalizedLicenses)` loop of
`analyzeWithPolicy`, with `break` on a red match embedded as returning without
recursing on the remaining tokens. -/
def scanTokens (index : LicensePolicyIndex) (key : String) :
    List String → ScanState → ScanState
  | [], st => st
  | license :: rest, st =>
    match jsGet index.entries license with
    | none =>
        scanTokens index key rest
          { st with hasUnknown := true, matched := st.matched ++ [{ license := license }] }
    | some lookup =>
        let st := { st with
          matched := st.matched ++
            [{ license := license, category := some lookup.1, notes := lookup.2.notes }] }
        if lookup.1 = LicenseCategory.red then
          { st with classification := .red,
                    failReason := some (key ++ ": Detected prohibited license.") }
        else
          let st :=
            if lookup.1 = LicenseCategory.yellow ∧ st.classification ≠ .red then
              { st with classification := .yellow,
                        failReason := some (key ++ ": Detected conditionally approved license.") }
            else st
          let st := if lookup.1 = LicenseCategory.green then { st with hasGreen := true } else st
          scanTokens index key rest st

/-- Result of classifying a single entry: the component report plus the
optional fail reason handed to `updateCounts`. -/
structure ClassifiedEntry where
  report : ComponentReport
  failReason : Option String
deriving DecidableEq, Repr

/-- Classification, fail reason and match list computed by the scan section
of `analyzeWithPolicy` for one entry's key and raw license list. -/
def classifyOutcome (index : LicensePolicyIndex) (failOnUnknown : Bool)
    (key : String) (licenses : List String) :
    Classification × Option String × List LicenseMatch :=
  let normalizedLicenses := licenses.map normalizeLicenseId
  if normalizedLicenses = [] then
    (Classification.unlicensed,
      if failOnUnknown then some (key ++ ": Missing license information.") else none,
      [])
  else
    let st := scanTokens index key normalizedLicenses {}
    let classification :=
      if st.classification = Classification.green ∧ ¬ st.hasGreen then
        (if st.hasUnknown then Classification.unknown else Classification.green)
      else st.classification
    let failReason :=
      if classification = Classification.unknown ∧ failOnUnknown then
        some (key ++ ": Encountered license not defined in policy.")
      else st.failReason
    (classification, failReason, st.matched)

/-- Per-entry body of `analyzeWithPolicy`: normalize tokens, classify, and
assemble the `ComponentReport`. -/
def classifyEntry (index : LicensePolicyIndex) (failOnUnknown : Bool)
    (entry : BomEntry) : ClassifiedEntry :=
  let outcome := classifyOutcome index failOnUnknown entry.key entry.licenses
  { report :=
      { ref := optOr entry.component.bomRef (some entry.key) |>.getD entry.key
        name := optOr entry.component.name (some entry.key) |>.getD entry.key
        version := entry.component.version
        componentType := entry.component.componentType
        purl := entry.component.purl
        licenses := entry.licenses
        classification := outcome.1
        matchedLicences := outcome.2.2 }
    failReason := outcome.2.1 }

/-- Aggregate counters of the audit (`LicenseAnalysisResult.counts`). -/
structure LicenseCounts where
  total : Nat := 0
  withLicenses : Nat := 0
  green : Nat := 0
  yellow : Nat := 0
  red : Nat := 0
  unknown : Nat := 0
  unlicensed : Nat := 0
deriving DecidableEq, Repr

/-- Aggregated audit result (`LicenseAnalysisResult`). -/
structure LicenseAnalysisResult where
  components : List ComponentReport := []
  counts : LicenseCounts := {}
  red : List ComponentReport := []
  yellow : List ComponentReport := []
  unknown : List ComponentReport := []
  unlicensed : List ComponentReport := []
  failReasons : List String := []
deriving DecidableEq, Repr

/-- `updateCounts`: bump the aggregate counters for one component report and
record its failure reason when present. -/
def updateCounts (result : LicenseAnalysisResult) (component : ComponentReport)
    (failReason : Option String) : LicenseAnalysisResult :=
  let counts := { result.counts with
    total := result.counts.total + 1
    withLicenses := result.counts.withLicenses + (if component.licenses = [] then 0 else 1) }
  let result := { result with counts := counts }
  let result :=
    match component.classification with
    | .red =>
        { result with counts := { result.counts with red := result.counts.red + 1 },
                      red := result.red ++ [component] }
    | .yellow =>
        { result with counts := { result.counts with yellow := result.counts.yellow + 1 },
                      yellow := result.yellow ++ [component] }
    | .green =>
        { result with counts := { result.counts with green := result.counts.green + 1 } }
    | .unknown =>
        { result with counts := { result.counts with unknown := result.counts.unknown + 1 },
                      unknown := result.unknown ++ [component] }
    | .unlicensed =>
        { result with counts := { result.counts with unlicensed := result.counts.unlicensed + 1 },
                      unlicensed := result.unlicensed ++ [component] }
  match failReason with
  | some reason => { result with failReasons := result.failReasons ++ [reason] }
  | none => result

/-- Fold step of `analyzeWithPolicy`: classify the entry, push the report and
update the counters. -/
def analyzeStep (index : LicensePolicyIndex) (failOnUnknown : Bool)
    (result : LicenseAnalysisResult) (entry : BomEntry) : LicenseAnalysisResult :=
  let c := classifyEntry index failOnUnknown entry
  updateCounts { result with components := result.components ++ [c.report] } c.report c.failReason

/-- `analyzeWithPolicy`: run the per-component classification over every SBOM
entry, starting from the all-zero result. -/
def analyzeWithPolicy (index : LicensePolicyIndex) (failOnUnknown : Bool)
    (entries : List BomEntry) : LicenseAnalysisResult :=
  entries.foldl (analyzeStep index failOnUnknown) {}

/-- The overall verdict computed by the license tool's `exec`:
`analysis.counts.red === 0 && (!(args.failOnUnknown ?? false) ||
(analysis.counts.unknown === 0 && analysis.counts.unlicensed === 0))`. -/
def licensesOk (counts : LicenseCounts) (failOnUnknown : Bool) : Bool :=
  counts.red == 0 && (!failOnUnknown || (counts.unknown == 0 && counts.unlicensed == 0))

/-! ## Advisory severity model (`packages/advisory/index.ts`) -/

/-- Normalised severity buckets (`AdvisorySeverity`). -/
inductive AdvisorySeverity where
  | critical
  | high
  | medium
  | low
  | info
  | unknown
deriving DecidableEq, Repr

/-- `SEVERITY_WEIGHTS`. -/
def severityWeight : AdvisorySeverity → Nat
  | .critical => 5
  | .high => 4
  | .medium => 3
  | .low => 2
  | .info => 1
  | .unknown => 0

/-- Lower-case member strings of `SEVERITY_WEIGHTS` (the `value in
SEVERITY_WEIGHTS` check) mapped back to the enumeration. -/
def severityOfString (value : String) : Option AdvisorySeverity :=
  if value = "critical" then some .critical
  else if value = "high" then some .high
  else if value = "medium" then some .medium
  else if value = "low" then some .low
  else if value = "info" then some .info
  else if value = "unknown" then some .unknown
  else none

/-- Severity rendered back to its JavaScript string (used in report text). -/
def severityLabel : AdvisorySeverity → String
  | .critical => "critical"
  | .high => "high"
  | .medium => "medium"
  | .low => "low"
  | .info => "info"
  | .unknown => "unknown"

/-- `normaliseSeverity`: case-fold, accept the canonical names, map
`moderate` to medium and `informational` to info, everything else (including
a missing value, embedded as `none`) to unknown. -/
def normaliseSeverity (severity : Option String) : AdvisorySeverity :=
  match severity with
  | none => .unknown
  | some s =>
    if s = "" then .unknown
    else
      let value := jsToLower s
      match severityOfString value with
      | some sev => sev
      | none =>
        if value = "moderate" then .medium
        else if value = "informational" then .info
        else .unknown

/-- `meetsSeverityThreshold`. -/
def meetsSeverityThreshold (severity threshold : AdvisorySeverity) : Bool :=
  severityWeight severity ≥ severityWeight threshold

/-- Normalised advisory finding (`AdvisoryFinding`); the provider-specific
free-form `metadata` record is not carried because nothing in scope reads it. -/
structure AdvisoryFinding where
  id : String
  packageName : String
  packageVersion : Option String := none
  severity : AdvisorySeverity
  title : Option String := none
  recommendation : Option String := none
  fixedVersion : Option String := none
  url : Option String := none
  cwes : Option (List String) := none
  source : String
deriving DecidableEq, Repr

/-- Aggregate severity counts (`AdvisorySummary`). -/
structure AdvisorySummary where
  total : Nat := 0
  critical : Nat := 0
  high : Nat := 0
  medium : Nat := 0
  low : Nat := 0
  info : Nat := 0
  unknown : Nat := 0
deriving DecidableEq, Repr

/-- The `switch (finding.severity)` body of `summariseFindings`. -/
def bumpSummary (s : AdvisorySummary) (f : AdvisoryFinding) : AdvisorySummary :=
  match f.severity with
  | .critical => { s with critical := s.critical + 1 }
  | .high => { s with high := s.high + 1 }
  | .medium => { s with medium := s.medium + 1 }
  | .low => { s with low := s.low + 1 }
  | .info => { s with info := s.info + 1 }
  | .unknown => { s with unknown := s.unknown + 1 }

/-- `summariseFindings`: `total` is set to `findings.length` up front, then
one pass bumps the bucket matching each finding's severity. -/
def summariseFindings (findings : List AdvisoryFinding) : AdvisorySummary :=
  findings.foldl bumpSummary { total := findings.length }

/-! ## Ignore rules (`packages/advisory/index.ts`) -/

/-- `AdvisoryIgnoreRule`. -/
structure AdvisoryIgnoreRule where
  id : String
  packageName : Option String := none
  expiresAt : Option String := none
  reason : Option String := none
deriving DecidableEq, Repr

/-- Result of `applyIgnoreRules` (`ApplyIgnoreResult`). -/
structure ApplyIgnoreResult where
  findings : List AdvisoryFinding := []
  ignored : List AdvisoryFinding := []
  warnings : List String := []
deriving DecidableEq, Repr

/-- Date handling boundary: `new Date(s).getTime()` (as `parse`, `none` when
the result is not finite), `Date.now()` (as `now`) and
`Date.prototype.toISOString` (as `toISO`). -/
structure DateModel where
  parse : String → Option Int
  toISO : Int → String
  now : Int

/-- The trimmed rule produced by the `normalisedRules` map step. -/
def normaliseRule (r : AdvisoryIgnoreRule) : AdvisoryIgnoreRule :=
  { id := jsTrim r.id
    packageName := r.packageName.map jsTrim
    expiresAt := r.expiresAt.map jsTrim
    reason := r.reason.map jsTrim }

/-- The rule-matching predicate of `applyIgnoreRules`: ids compare
case-insensitively, a falsy (absent or empty) package filter matches any
package, otherwise packages compare case-insensitively. -/
def ruleMatches (candidate : AdvisoryIgnoreRule) (f : AdvisoryFinding) : Bool :=
  jsToUpper candidate.id == jsToUpper f.id &&
    (match candidate.packageName with
     | none => true
     | some p => if p = "" then true else jsToLower p == jsToLower f.packageName)

/-- Expiry evaluation of a matched rule: `some t` exactly when the rule has a
truthy `expiresAt` whose parse is finite and strictly in the past (then `t` is
the parsed timestamp used in the warning); `none` otherwise. -/
def ruleExpired (dm : DateModel) (candidate : AdvisoryIgnoreRule) : Option Int :=
  match candidate.expiresAt with
  | none => none
  | some e =>
    if e = "" then none
    else
      match dm.parse e with
      | none => none
      | some t => if t < dm.now then some t else none

/-- The warning text pushed for an expired ignore rule. -/
def expiredWarning (dm : DateModel) (f : AdvisoryFinding) (t : Int) : String :=
  "Ignore rule for " ++ f.id ++ " (" ++ f.packageName ++ ") expired on " ++ dm.toISO t ++ "."

/-- Normalised rules with falsy ids dropped, as computed inside
`applyIgnoreRules`. -/
def normalisedRules (rules : List AdvisoryIgnoreRule) : List AdvisoryIgnoreRule :=
  (rules.map normaliseRule).filter (fun r => r.id ≠ "")

/-- The first normalised rule matching a finding (`normalisedRules.find`). -/
def matchedRule (rules : List AdvisoryIgnoreRule) (f : AdvisoryFinding) :
    Option AdvisoryIgnoreRule :=
  (normalisedRules rules).find? (fun candidate => ruleMatches candidate f)

/-- Per-finding body of the `applyIgnoreRules` loop. -/
def applyIgnoreStep (dm : DateModel) (rules : List AdvisoryIgnoreRule)
    (acc : ApplyIgnoreResult) (f : AdvisoryFinding) : ApplyIgnoreResult :=
  match matchedRule rules f with
  | none => { acc with findings := acc.findings ++ [f] }
  | some rule =>
    match ruleExpired dm rule with
    | some t =>
        { acc with warnings := acc.warnings ++ [expiredWarning dm f t],
                   findings := acc.findings ++ [f] }
    | none => { acc with ignored := acc.ignored ++ [f] }

/-- `applyIgnoreRules`: empty rule list short-circuits, otherwise each finding
is matched against the first applicable normalised rule. -/
def applyIgnoreRules (dm : DateModel) (findings : List AdvisoryFinding)
    (rules : List AdvisoryIgnoreRule) : ApplyIgnoreResult :=
  if rules = [] then { findings := findings }
  else findings.foldl (applyIgnoreStep dm rules) {}

/-- Merge key used by `mergeIgnoreRules`:
`UPPER(id) :: lower(packageName) ?? '*'`. -/
def mergeKey (r : AdvisoryIgnoreRule) : String :=
  jsToUpper r.id ++ "::" ++ (match r.packageName with
    | some p => jsToLower p
    | none => "*")

/-- `mergeIgnoreRules`: fold every rule of every set (skipping falsy ids)
into a map keyed by `mergeKey`, later insertions overwriting earlier ones,
and return the map's values. -/
def mergeIgnoreRules (sets : List (List AdvisoryIgnoreRule)) : List AdvisoryIgnoreRule :=
  jsValues (sets.foldl
    (fun m list => list.foldl
      (fun m entry => if entry.id = "" then m else jsSet m (mergeKey entry) entry) m)
    [])

/-! ## npm audit provider (`packages/advisory/npm.ts`) -/

/-- One advisory object from `npm audit --json` (`NpmAuditFinding`). -/
structure NpmAuditFinding where
  id : String
  moduleName : String
  version : String
  title : String
  severity : String
  recommendation : Option String := none
  patchedVersions : Option String := none
  url : Option String := none
  cwe : Option (List String) := none
deriving DecidableEq, Repr

/-- Parsed `npm audit` output (`NpmAuditOutput`); `advisories` is a record,
embedded as its list of values (`Object.values`). The `vulnerabilities` and
`metadata` fields are never read by `transform` and are omitted. -/
structure NpmAuditOutput where
  advisories : List NpmAuditFinding := []
deriving DecidableEq, Repr

/-- `NpmAuditProvider.transform`: map each advisory to a normalised finding
with the provider id `npm-audit` as source. -/
def npmTransform (output : NpmAuditOutput) : List AdvisoryFinding :=
  output.advisories.map (fun advisory =>
    { id := advisory.id
      packageName := advisory.moduleName
      packageVersion := some advisory.version
      severity := normaliseSeverity (some advisory.severity)
      title := some advisory.title
      recommendation := advisory.recommendation
      fixedVersion := advisory.patchedVersions
      url := advisory.url
      cwes := advisory.cwe
      source := "npm-audit" })

/-- Findings-plus-warnings payload of a provider `run`
(the parts of `AdvisoryProviderResult` the callers consume). -/
structure ProviderRunPayload where
  findings : List AdvisoryFinding := []
  warnings : List String := []
deriving DecidableEq, Repr

/-- `NpmAuditProvider.run` after the child process has closed, as a function
of the exit code, captured stdout/stderr text, and the `JSON.parse` boundary
(`parseOutput`). Throws (`Except.error`) exactly where the source throws. -/
def npmAuditRun (parseOutput : String → Except String NpmAuditOutput)
    (code : Int) (stdoutText stderrText : String) :
    Except String ProviderRunPayload :=
  if code ≠ 0 ∧ jsTrim stdoutText = "" then
    .error ("npm audit failed: " ++
      (if jsTrim stderrText = "" then "exit code " ++ toString code else jsTrim stderrText))
  else
    let parsed : Except String NpmAuditOutput :=
      if jsTrim stdoutText = "" then .ok {} else parseOutput stdoutText
    match parsed with
    | .error msg => .error ("Failed to parse npm audit output: " ++ msg)
    | .ok output =>
      let warnings :=
        if code ≠ 0 ∧ jsTrim stderrText ≠ "" then [jsTrim stderrText] else []
      .ok { findings := npmTransform output, warnings := warnings }

/-! ## Ignore file loading (`loadIgnoreRules` in `packages/advisory/index.ts`) -/

/-- Filesystem errors distinguished by the source (`error.code === 'ENOENT'`
versus everything else). -/
inductive FsError where
  | enoent
  | other (msg : String)
deriving DecidableEq, Repr

/-- Minimal JSON value model for the ignore-file contents. -/
inductive Json where
  | null
  | bool (b : Bool)
  | num (n : Int)
  | str (s : String)
  | arr (items : List Json)
  | obj (fields : List (String × Json))

/-- Optional string field of a rule object: kept only when the field is a
string with a truthy trim (`typeof x === 'string' && x.trim()`). -/
def jsonStrField (fields : JsMap Json) (key : String) : Option String :=
  match jsGet fields key with
  | some (.str s) => if jsTrim s = "" then none else some (jsTrim s)
  | _ => none

/-- Per-element body of the `loadIgnoreRules` loop: non-objects and entries
without a truthy string `id` are silently dropped. -/
def parseIgnoreEntry (j : Json) : Option AdvisoryIgnoreRule :=
  match j with
  | .obj fields =>
    (match jsGet fields "id" with
     | some (.str s) =>
       if jsTrim s = "" then none
       else some
         { id := jsTrim s
           packageName := jsonStrField fields "packageName"
           expiresAt := jsonStrField fields "expiresAt"
           reason := jsonStrField fields "reason" }
     | _ => none)
  | _ => none

/-- `loadIgnoreRules`, with path resolution, the file read and `JSON.parse`
passed in as boundaries. `ENOENT` yields an empty list; any other read or
parse failure is rethrown naming the resolved path; a non-array document
yields an empty list; malformed entries are dropped. -/
def loadIgnoreRules (resolveP : String → String)
    (readF : String → Except FsError String)
    (parseJson : String → Except String Json)
    (filePath : String) : Except String (List AdvisoryIgnoreRule) :=
  let resolved := resolveP filePath
  match readF resolved with
  | .error .enoent => .ok []
  | .error (.other msg) =>
      .error ("Failed to read advisory ignore file at " ++ resolved ++ ": " ++ msg)
  | .ok text =>
    match parseJson text with
    | .error msg =>
        .error ("Failed to read advisory ignore file at " ++ resolved ++ ": " ++ msg)
    | .ok (.arr items) => .ok (items.filterMap parseIgnoreEntry)
    | .ok _ => .ok []

/-! ## Ignore-rule resolution (`resolveIgnoreRules` in
`packages/mcp/tools/security.ts`) -/

/-- The optional `ignore` object found in the security tool's configuration
defaults (`{ ids?, file? }`). -/
structure ConfigIgnoreObj where
  ids : Option (List String) := none
  file : Option String := none
deriving DecidableEq, Repr

/-- Arguments of `resolveIgnoreRules`. -/
structure ResolveIgnoreOptions where
  configIgnore : Option ConfigIgnoreObj := none
  configIgnoreIds : Option (List String) := none
  configIgnoreFile : Option String := none
  runtimeIds : Option (List String) := none
  runtimeFile : Option String := none
deriving DecidableEq, Repr

/-- Trimmed value of a string when the trim is truthy. -/
def trimmedNonempty (s : String) : Option String :=
  if jsTrim s = "" then none else some (jsTrim s)

/-- The `inlineIds` accumulator of `resolveIgnoreRules`: config `ignore.ids`
entries, then `configIgnoreIds`, then `runtimeIds`, each trimmed and filtered
for truthiness, all collected into one list. -/
def resolveInlineIds (o : ResolveIgnoreOptions) : List String :=
  (match o.configIgnore with
   | some ci => (ci.ids.getD []).filterMap trimmedNonempty
   | none => []) ++
  (o.configIgnoreIds.getD []).filterMap trimmedNonempty ++
  (o.runtimeIds.getD []).filterMap trimmedNonempty

/-- The `ignoreSets` list of `resolveIgnoreRules` in push order: rules loaded
from the config `ignore.file`, then from `configIgnoreFile`, then from
`runtimeFile`, and finally one synthesized set holding every inline id (pushed
only when at least one inline id exists). `loadFile` is the already-resolved
result of `loadIgnoreRules` for a path. -/
def resolveSets (loadFile : String → List AdvisoryIgnoreRule)
    (o : ResolveIgnoreOptions) : List (List AdvisoryIgnoreRule) :=
  (match o.configIgnore with
   | some ci =>
     (match ci.file.bind trimmedNonempty with
      | some f => [loadFile f]
      | none => [])
   | none => []) ++
  (match o.configIgnoreFile.bind trimmedNonempty with
   | some f => [loadFile f]
   | none => []) ++
  (match o.runtimeFile.bind trimmedNonempty with
   | some f => [loadFile f]
   | none => []) ++
  (let inlineIds := resolveInlineIds o
   if inlineIds = [] then [] else [inlineIds.map (fun id => { id := id })])

/-- `resolveIgnoreRules`: merge the accumulated ignore sets. -/
def resolveIgnoreRules (loadFile : String → List AdvisoryIgnoreRule)
    (o : ResolveIgnoreOptions) : List AdvisoryIgnoreRule :=
  mergeIgnoreRules (resolveSets loadFile o)

/-- Modelled from the claim's words for comparison with `resolveIgnoreRules`:
the merge precedence it asserts, namely config inline ids first (lowest), then
the config ignore file(s), then the runtime ignore file, then runtime inline
ids last (highest). -/
def resolveIgnoreRulesClaimedOrder (loadFile : String → List AdvisoryIgnoreRule)
    (o : ResolveIgnoreOptions) : List AdvisoryIgnoreRule :=
  let configInline :=
    (match o.configIgnore with
     | some ci => (ci.ids.getD []).filterMap trimmedNonempty
     | none => []) ++
    (o.configIgnoreIds.getD []).filterMap trimmedNonempty
  let runtimeInline := (o.runtimeIds.getD []).filterMap trimmedNonempty
  mergeIgnoreRules
    ([(configInline.map (fun id => ({ id := id } : AdvisoryIgnoreRule)))] ++
     (match o.configIgnore with
      | some ci =>
        (match ci.file.bind trimmedNonempty with
         | some f => [loadFile f]
         | none => [])
      | none => []) ++
     (match o.configIgnoreFile.bind trimmedNonempty with
      | some f => [loadFile f]
      | none => []) ++
     (match o.runtimeFile.bind trimmedNonempty with
      | some f => [loadFile f]
      | none => []) ++
     [(runtimeInline.map (fun id => ({ id := id } : AdvisoryIgnoreRule)))])

/-! ## Security tool pipeline (`exec` in `packages/mcp/tools/security.ts`) -/

/-- Response of the security tool, reduced to what the claims observe: a
fatal error response (`isError: true` with only a message, returned from a
`return { isError: true, ... }` site) versus the final structured report
(whose `isError` flag is `!ok`). -/
inductive SecurityResponse where
  | fatal (message : String)
  | report (ok : Bool) (counts : AdvisorySummary) (findings ignored : List AdvisoryFinding)
      (warnings failReasons : List String)
deriving DecidableEq, Repr

/-- Whether a response is one of the early fatal error returns. -/
def SecurityResponse.isFatal : SecurityResponse → Bool
  | .fatal _ => true
  | .report .. => false

/-- Fail-reason text pushed per surviving finding that meets the threshold. -/
def securityFailReason (f : AdvisoryFinding) (threshold : AdvisorySeverity) : String :=
  f.packageName ++ (match f.packageVersion with | some v => "@" ++ v | none => "") ++
    " (" ++ f.id ++ ") severity " ++ severityLabel f.severity ++
    " exceeds threshold " ++ severityLabel threshold ++ "."

/-- The security tool's `exec` from the point the target is known to exist,
with the I/O boundaries passed in:
* `sbomResult` is the outcome of SBOM acquisition — `none` when it is skipped
  (`skipGeneration` without `sbomPath`), `some (.error m)` when reading or
  generating the SBOM threw (the source returns a fatal response), and
  `some (.ok ())` on success;
* `runNpm` is `scanners.includes('npm-audit')`;
* `providerResult` is the outcome of `NpmAuditProvider.run` — the source
  catches a throw and pushes its message onto `warnings`, keeping `findings`
  empty.
Then: the `failOnUnscanned` guard, `applyIgnoreRules`, `summariseFindings`,
threshold fail reasons, and `ok = failReasons.length === 0`. -/
def securityExec (dm : DateModel)
    (sbomResult : Option (Except String Unit))
    (runNpm : Bool)
    (providerResult : Except String ProviderRunPayload)
    (failOnUnscanned : Bool)
    (ignoreRules : List AdvisoryIgnoreRule)
    (severityThreshold : AdvisorySeverity) : SecurityResponse :=
  match sbomResult with
  | some (.error msg) => .fatal msg
  | _ =>
    let gathered : List AdvisoryFinding × List String :=
      if runNpm then
        match providerResult with
        | .ok r => (r.findings, r.warnings)
        | .error msg => ([], [msg])
      else ([], [])
    if gathered.1 = [] ∧ failOnUnscanned then
      .fatal "No scanners produced results. Verify tooling configuration or project manifests."
    else
      let applied := applyIgnoreRules dm gathered.1 ignoreRules
      let warnings := gathered.2 ++ applied.warnings
      let counts := summariseFindings applied.findings
      let failReasons := applied.findings.filterMap (fun f =>
        if meetsSeverityThreshold f.severity severityThreshold then
          some (securityFailReason f severityThreshold)
        else none)
      let ok := failReasons = []
      .report ok counts applied.findings applied.ignored warnings failReasons

/-! ## Configuration accessors (`packages/config/index.ts`) -/

/-- Heap of license-entry objects: JavaScript object references become
addresses, so aliasing between the store and values handed to callers is
explicit. -/
structure LicenseHeap where
  entries : Nat → LicenseEntry

/-- A caller (or anyone holding a reference) mutating the entry object at
address `a` in place. -/
def mutateEntry (h : LicenseHeap) (a : Nat) (e : LicenseEntry) : LicenseHeap :=
  ⟨fun x => if x = a then e else h.entries x⟩

/-- The `licenses` field of a `Config` instance: per bucket, the list of
references to entry objects (the constructor's `[...(licenses.green ?? [])]`
copies the array but keeps the same entry references). -/
structure ConfigLicensesRefs where
  green : List Nat := []
  yellow : List Nat := []
  red : List Nat := []
deriving DecidableEq, Repr

/-- Stored reference list of one bucket. -/
def bucketRefs (c : ConfigLicensesRefs) (category : LicenseCategory) : List Nat :=
  match category with
  | .green => c.green
  | .yellow => c.yellow
  | .red => c.red

/-- `Config.getLicenses`: `[...(this.licenses[category] ?? [])]` — a fresh
array object whose elements are the stored entry references themselves. -/
def getLicensesRefs (c : ConfigLicensesRefs) (category : LicenseCategory) : List Nat :=
  bucketRefs c category

/-- The license entries a subsequent accessor call observes for a bucket:
the stored references dereferenced through the heap. -/
def storedLicenses (h : LicenseHeap) (c : ConfigLicensesRefs)
    (category : LicenseCategory) : List LicenseEntry :=
  (bucketRefs c category).map h.entries

/-! ## Derived characterisations used by the theorems -/

/-- Sum of the six severity buckets of a summary. -/
def summarySum (s : AdvisorySummary) : Nat :=
  s.critical + s.high + s.medium + s.low + s.info + s.unknown

/-- The key/value insertions `buildLicenseIndex` performs for one entry, in
execution order. -/
def entryInsertions (category : LicenseCategory) (e : LicenseEntry) :
    List (String × (LicenseCategory × LicenseEntry)) :=
  if e.id = "" then []
  else
    (normalizeLicenseId e.id, (category, e)) ::
      (match e.name with
       | some n => if n = "" then [] else [(normalizeLicenseId n, (category, e))]
       | none => [])

/-- Every insertion `buildLicenseIndex` performs, in execution order: the
green bucket first, then yellow, then red. -/
def indexInsertions (b : LicenseBuckets) :
    List (String × (LicenseCategory × LicenseEntry)) :=
  (b.green.map (entryInsertions .green)).flatten ++
    (b.yellow.map (entryInsertions .yellow)).flatten ++
    (b.red.map (entryInsertions .red)).flatten

/-- Whether `applyIgnoreRules` keeps a finding in the surviving list: it is
unmatched, or its first matching rule carries a parseable past expiry. -/
def keptAfterIgnore (dm : DateModel) (rules : List AdvisoryIgnoreRule)
    (f : AdvisoryFinding) : Bool :=
  match matchedRule rules f with
  | none => true
  | some rule => (ruleExpired dm rule).isSome

/-- Whether `applyIgnoreRules` moves a finding to the ignored list: it is
matched and its first matching rule is not expired. -/
def ignoredByIgnore (dm : DateModel) (rules : List AdvisoryIgnoreRule)
    (f : AdvisoryFinding) : Bool :=
  match matchedRule rules f with
  | none => false
  | some rule => (ruleExpired dm rule).isNone

/-- The warning `applyIgnoreRules` emits for a finding, when any: present
exactly when the finding's first matching rule has a parseable past expiry. -/
def ignoreWarning (dm : DateModel) (rules : List AdvisoryIgnoreRule)
    (f : AdvisoryFinding) : Option String :=
  (matchedRule rules f).bind (fun rule =>
    (ruleExpired dm rule).map (expiredWarning dm f))

/-- The key/value insertions `mergeIgnoreRules` performs, in execution
order: every rule of every set with a truthy id, keyed by `mergeKey`. -/
def mergePairs (sets : List (List AdvisoryIgnoreRule)) :
    List (String × AdvisoryIgnoreRule) :=
  (sets.flatten.filter (fun e => e.id ≠ "")).map (fun e => (mergeKey e, e))

/-! ## Map lemmas -/

theorem optOr_none_right {α : Type} (a : Option α) : optOr a none = a := by
  cases a <;> rfl

theorem jsGet_nil {α : Type} (k : String) : jsGet ([] : JsMap α) k = none := rfl

theorem jsGet_jsSet {α : Type} (m : JsMap α) (k : String) (v : α) (q : String) :
    jsGet (jsSet m k v) q = if q = k then some v else jsGet m q := by
  induction m with
  | nil =>
    by_cases h : q = k
    · subst h
      simp [jsSet, jsGet, List.find?]
    · have hb : (k == q) = false := by
        simp only [beq_eq_false_iff_ne, ne_eq]
        exact fun hk => h hk.symm
      simp [jsSet, jsGet, List.find?, hb, h]
  | cons p t ih =>
    by_cases hpk : p.1 = k
    · have hb : (p.1 == k) = true := by simp [beq_iff_eq, hpk]
      by_cases hq : q = k
      · subst hq
        simp [jsSet, hb, jsGet, List.find?]
      · have h1 : (k == q) = false := by
          simp only [beq_eq_false_iff_ne, ne_eq]
          exact fun hk => hq hk.symm
        have h2 : (p.1 == q) = false := by
          simp only [beq_eq_false_iff_ne, ne_eq]
          exact fun hk => hq ((hpk.symm.trans hk).symm)
        simp [jsSet, hb, jsGet, List.find?, h1, h2, hq]
    · have hb : (p.1 == k) = false := by simp [beq_eq_false_iff_ne, hpk]
      by_cases hpq : p.1 = q
      · have hqk : ¬ q = k := fun h => hpk (hpq.trans h)
        have h2 : (p.1 == q) = true := by simp [beq_iff_eq, hpq]
        simp [jsSet, hb, jsGet, List.find?, h2, hqk]
      · have h2 : (p.1 == q) = false := by simp [beq_eq_false_iff_ne, hpq]
        have ih2 := ih
        simp only [jsGet] at ih2 ⊢
        simp [jsSet, hb, List.find?, h2, ih2]

theorem lastFind_cons {α : Type} (p : String × α) (t : List (String × α)) (k : String) :
    lastFind (p :: t) k = optOr (lastFind t k) (if p.1 = k then some p.2 else none) := by
  unfold lastFind
  rw [List.reverse_cons, List.find?_append]
  cases h : t.reverse.find? (fun q => q.1 == k) with
  | some x => simp [Option.or, optOr]
  | none =>
    by_cases hp : p.1 = k
    · have hb : (p.1 == k) = true := by simp [beq_iff_eq, hp]
      simp [Option.or, optOr, List.find?, hb, hp]
    · have hb : (p.1 == k) = false := by simp [beq_eq_false_iff_ne, hp]
      simp [Option.or, optOr, List.find?, hb, hp]

theorem insList_append {α : Type} (m : JsMap α) (l₁ l₂ : List (String × α)) :
    insList m (l₁ ++ l₂) = insList (insList m l₁) l₂ := by
  unfold insList
  exact List.foldl_append ..

theorem jsGet_insList {α : Type} (l : List (String × α)) :
    ∀ (m : JsMap α) (k : String),
      jsGet (insList m l) k = optOr (lastFind l k) (jsGet m k) := by
  induction l with
  | nil =>
    intro m k
    simp [insList, lastFind, optOr]
  | cons p t ih =>
    intro m k
    have step : insList m (p :: t) = insList (jsSet m p.1 p.2) t := rfl
    rw [step, ih, jsGet_jsSet, lastFind_cons]
    cases h : lastFind t k with
    | some x => simp [optOr]
    | none =>
      by_cases hq : k = p.1
      · subst hq
        simp [optOr]
      · have hpk : ¬ p.1 = k := fun hh => hq hh.symm
        simp [optOr, hq, hpk]

/-! ## License index lemmas -/

theorem insertLicenseEntry_eq_insList (category : LicenseCategory)
    (m : JsMap (LicenseCategory × LicenseEntry)) (e : LicenseEntry) :
    insertLicenseEntry category m e = insList m (entryInsertions category e) := by
  unfold insertLicenseEntry entryInsertions
  by_cases h : e.id = ""
  · simp [h, insList]
  · cases hn : e.name with
    | none => simp [h, insList]
    | some n =>
      by_cases hn2 : n = "" <;> simp [h, hn2, insList]

theorem foldl_insertLicenseEntry (category : LicenseCategory)
    (es : List LicenseEntry) :
    ∀ m, es.foldl (insertLicenseEntry category) m =
      insList m ((es.map (entryInsertions category)).flatten) := by
  induction es with
  | nil => intro m; rfl
  | cons e t ih =>
    intro m
    rw [List.foldl_cons, ih, List.map_cons, List.flatten_cons, insList_append,
      insertLicenseEntry_eq_insList]

theorem buildLicenseIndex_eq_insList (b : LicenseBuckets) :
    (buildLicenseIndex b).entries = insList [] (indexInsertions b) := by
  unfold buildLicenseIndex indexInsertions
  simp only [List.foldl_cons, List.foldl_nil, bucketEntries]
  rw [foldl_insertLicenseEntry, foldl_insertLicenseEntry, foldl_insertLicenseEntry,
    insList_append, insList_append]

/-- C8: building the license policy index processes the buckets in the fixed
order approved (green), conditional (yellow), prohibited (red) — the
insertion sequence `indexInsertions` lists exactly the index insertions in
that execution order, inserting each entry under its normalized id and, when
present, its normalized display name — and every lookup resolves to the
LAST insertion with that key: a colliding later insertion silently replaces
the earlier mapping instead of raising an error. -/
theorem c8_build_license_index_last_write_wins :
    ∀ (b : LicenseBuckets) (k : String),
      jsGet (buildLicenseIndex b).entries k = lastFind (indexInsertions b) k := by
  intro b k
  rw [buildLicenseIndex_eq_insList, jsGet_insList]
  exact optOr_none_right _

/-! ## Scan-loop lemmas -/

theorem scanTokens_classification_red (index : LicensePolicyIndex) (key : String) :
    ∀ (l : List String) (st : ScanState),
      (∃ lic ∈ l, ∃ e, jsGet index.entries lic = some (LicenseCategory.red, e)) →
      (scanTokens index key l st).classification = Classification.red := by
  intro l
  induction l with
  | nil =>
    intro st h
    simp at h
  | cons lic rest ih =>
    intro st h
    obtain ⟨x, hx, e, he⟩ := h
    cases hjs : jsGet index.entries lic with
    | none =>
      have hxr : x ∈ rest := by
        rcases List.mem_cons.mp hx with h1 | h1
        · subst h1
          rw [hjs] at he
          exact absurd he (by simp)
        · exact h1
      simp only [scanTokens, hjs]
      exact ih _ ⟨x, hxr, e, he⟩
    | some lookup =>
      by_cases hred : lookup.1 = LicenseCategory.red
      · simp [scanTokens, hjs, hred]
      · have hxr : x ∈ rest := by
          rcases List.mem_cons.mp hx with h1 | h1
          · subst h1
            rw [hjs] at he
            have : lookup = (LicenseCategory.red, e) := by injection he
            exact absurd (by rw [this]) hred
          · exact h1
        simp only [scanTokens, hjs]
        rw [if_neg hred]
        exact ih _ ⟨x, hxr, e, he⟩

theorem scanTokens_all_none (index : LicensePolicyIndex) (key : String) :
    ∀ (l : List String) (st : ScanState), l ≠ [] →
      (∀ lic ∈ l, jsGet index.entries lic = none) →
      scanTokens index key l st =
        { st with hasUnknown := true,
                  matched := st.matched ++ l.map (fun lic => { license := lic }) } := by
  intro l
  induction l with
  | nil =>
    intro st h _
    exact absurd rfl h
  | cons lic rest ih =>
    intro st _ hall
    have hlic : jsGet index.entries lic = none := hall lic (by simp)
    by_cases hr : rest = []
    · subst hr
      simp [scanTokens, hlic]
    · simp only [scanTokens, hlic]
      rw [ih _ hr (fun x hx => hall x (by simp [hx]))]
      simp

theorem scanTokens_break_eq (index : LicensePolicyIndex) (key : String)
    (r : String) (e : LicenseEntry)
    (hred : jsGet index.entries r = some (LicenseCategory.red, e)) :
    ∀ (pre post post' : List String) (st : ScanState),
      scanTokens index key (pre ++ r :: post) st =
        scanTokens index key (pre ++ r :: post') st := by
  intro pre
  induction pre with
  | nil =>
    intro post post' st
    simp [scanTokens, hred]
  | cons p pre ih =>
    intro post post' st
    simp only [List.cons_append, scanTokens]
    cases hjs : jsGet index.entries p with
    | none => exact ih ..
    | some lookup =>
      dsimp only
      by_cases hr : lookup.1 = LicenseCategory.red
      · simp [hr]
      · rw [if_neg hr, if_neg hr]
        exact ih ..

/-! ## Classification lemmas -/

theorem classifyEntry_report_classification (index : LicensePolicyIndex)
    (failOnUnknown : Bool) (entry : BomEntry) :
    (classifyEntry index failOnUnknown entry).report.classification =
      (classifyOutcome index failOnUnknown entry.key entry.licenses).1 := rfl

theorem classifyOutcome_red (index : LicensePolicyIndex) (failOnUnknown : Bool)
    (key : String) (licenses : List String)
    (h : ∃ lic ∈ licenses, ∃ e,
      jsGet index.entries (normalizeLicenseId lic) = some (LicenseCategory.red, e)) :
    (classifyOutcome index failOnUnknown key licenses).1 = Classification.red := by
  have hne : licenses ≠ [] := by
    rintro rfl
    simp at h
  have hmap : ¬ (licenses.map normalizeLicenseId = []) := by simpa using hne
  have hscan : (scanTokens index key (licenses.map normalizeLicenseId) {}).classification =
      Classification.red := by
    apply scanTokens_classification_red
    obtain ⟨lic, hl, e, he⟩ := h
    exact ⟨normalizeLicenseId lic, List.mem_map_of_mem _ hl, e, he⟩
  simp only [classifyOutcome]
  rw [if_neg hmap]
  simp [hscan]

theorem classifyOutcome_all_unmatched (index : LicensePolicyIndex)
    (failOnUnknown : Bool) (key : String) (licenses : List String)
    (hne : licenses ≠ [])
    (h : ∀ lic ∈ licenses, jsGet index.entries (normalizeLicenseId lic) = none) :
    (classifyOutcome index failOnUnknown key licenses).1 = Classification.unknown := by
  have hmap : ¬ (licenses.map normalizeLicenseId = []) := by simpa using hne
  have hmapne : licenses.map normalizeLicenseId ≠ [] := hmap
  have hall : ∀ lic ∈ licenses.map normalizeLicenseId, jsGet index.entries lic = none := by
    intro lic hl
    obtain ⟨x, hx, rfl⟩ := List.mem_map.mp hl
    exact h x hx
  have hscan := scanTokens_all_none index key (licenses.map normalizeLicenseId) {} hmapne hall
  simp only [classifyOutcome]
  rw [if_neg hmap]
  simp [hscan]

/-- C1: for every component entry, if any of its license tokens resolves in
the policy index to the prohibited (red) bucket, the resolved classification
is `red`, regardless of the token's position and of approved or conditional
matches among the other tokens; and the scan short-circuits at the first
prohibited match: the tokens after it have no influence on the computed
classification, fail reason or match list. -/
theorem c1_prohibited_token_forces_red_and_short_circuits :
    (∀ (index : LicensePolicyIndex) (failOnUnknown : Bool) (entry : BomEntry),
        (∃ lic ∈ entry.licenses, ∃ e,
          jsGet index.entries (normalizeLicenseId lic) = some (LicenseCategory.red, e)) →
        (classifyEntry index failOnUnknown entry).report.classification =
          Classification.red) ∧
    (∀ (index : LicensePolicyIndex) (failOnUnknown : Bool) (key : String)
        (pre post post' : List String) (r : String) (e : LicenseEntry),
        jsGet index.entries (normalizeLicenseId r) = some (LicenseCategory.red, e) →
        classifyOutcome index failOnUnknown key (pre ++ r :: post) =
          classifyOutcome index failOnUnknown key (pre ++ r :: post')) := by
  constructor
  · intro index failOnUnknown entry h
    rw [classifyEntry_report_classification]
    exact classifyOutcome_red index failOnUnknown entry.key entry.licenses h
  · intro index failOnUnknown key pre post post' r e hred
    have hmap1 : (pre ++ r :: post).map normalizeLicenseId =
        pre.map normalizeLicenseId ++ normalizeLicenseId r :: post.map normalizeLicenseId := by
      simp
    have hmap2 : (pre ++ r :: post').map normalizeLicenseId =
        pre.map normalizeLicenseId ++ normalizeLicenseId r :: post'.map normalizeLicenseId := by
      simp
    have hscan := scanTokens_break_eq index key (normalizeLicenseId r) e hred
      (pre.map normalizeLicenseId) (post.map normalizeLicenseId)
      (post'.map normalizeLicenseId) {}
    have hne1 : ¬ (pre.map normalizeLicenseId ++
        normalizeLicenseId r :: post.map normalizeLicenseId = []) := by simp
    have hne2 : ¬ (pre.map normalizeLicenseId ++
        normalizeLicenseId r :: post'.map normalizeLicenseId = []) := by simp
    simp only [classifyOutcome, hmap1, hmap2]
    rw [if_neg hne1, if_neg hne2, hscan]

/-- Witness for C1 at a concrete policy and component: licenses
`['MIT','GPL-3.0']` against `{green: [MIT], red: [GPL-3.0]}` classify `red`,
and the scan result is unchanged when the tokens after `GPL-3.0` change. -/
theorem c1_witness :
    (classifyEntry
        (buildLicenseIndex { green := [{ id := "MIT" }], red := [{ id := "GPL-3.0" }] })
        false
        { key := "pkg", licenses := ["MIT", "GPL-3.0"] }).report.classification =
      Classification.red ∧
    classifyOutcome (buildLicenseIndex { red := [{ id := "GPL-3.0" }] }) false "pkg"
        (["MIT"] ++ "GPL-3.0" :: ["Zlib"]) =
      classifyOutcome (buildLicenseIndex { red := [{ id := "GPL-3.0" }] }) false "pkg"
        (["MIT"] ++ "GPL-3.0" :: ["BSL-1.0"]) :=
  ⟨c1_prohibited_token_forces_red_and_short_circuits.1 _ _ _
      ⟨"GPL-3.0", by decide, { id := "GPL-3.0" }, by decide⟩,
   c1_prohibited_token_forces_red_and_short_circuits.2 _ _ _ _ _ _ _
      { id := "GPL-3.0" } (by decide)⟩

/-- C3: a component with an empty license list classifies `unlicensed`; a
component with a non-empty license list none of whose tokens resolves in the
policy index classifies `unknown` — the two cases always land in distinct
buckets — and with an entirely empty policy index every licensed component
classifies `unknown`. -/
theorem c3_unlicensed_vs_unknown :
    (∀ (index : LicensePolicyIndex) (failOnUnknown : Bool) (entry : BomEntry),
        entry.licenses = [] →
        (classifyEntry index failOnUnknown entry).report.classification =
          Classification.unlicensed) ∧
    (∀ (index : LicensePolicyIndex) (failOnUnknown : Bool) (entry : BomEntry),
        entry.licenses ≠ [] →
        (∀ lic ∈ entry.licenses, jsGet index.entries (normalizeLicenseId lic) = none) →
        (classifyEntry index failOnUnknown entry).report.classification =
          Classification.unknown) ∧
    (∀ (failOnUnknown : Bool) (entry : BomEntry),
        entry.licenses ≠ [] →
        (classifyEntry (buildLicenseIndex {}) failOnUnknown entry).report.classification =
          Classification.unknown) := by
  refine ⟨?_, ?_, ?_⟩
  · intro index failOnUnknown entry h
    rw [classifyEntry_report_classification, h]
    simp [classifyOutcome]
  · intro index failOnUnknown entry hne hall
    rw [classifyEntry_report_classification]
    exact classifyOutcome_all_unmatched index failOnUnknown entry.key entry.licenses hne hall
  · intro failOnUnknown entry hne
    rw [classifyEntry_report_classification]
    refine classifyOutcome_all_unmatched _ failOnUnknown entry.key entry.licenses hne ?_
    intro lic _
    rfl

/-- Witness for C3: a component without licenses is `unlicensed`, and a
component licensed `Proprietary-XYZ` against an empty policy index is
`unknown`. -/
theorem c3_witness :
    (classifyEntry (buildLicenseIndex {}) true { key := "bare" }).report.classification =
      Classification.unlicensed ∧
    (classifyEntry (buildLicenseIndex {}) false
        { key := "prop", licenses := ["Proprietary-XYZ"] }).report.classification =
      Classification.unknown ∧
    (classifyEntry (buildLicenseIndex { green := [{ id := "MIT" }] }) false
        { key := "prop", licenses := ["Proprietary-XYZ"] }).report.classification =
      Classification.unknown :=
  ⟨c3_unlicensed_vs_unknown.1 _ _ _ rfl,
   c3_unlicensed_vs_unknown.2.2 _ _ (by decide),
   c3_unlicensed_vs_unknown.2.1 _ _ _ (by decide) (by decide)⟩

/-! ## Counting lemmas -/

theorem updateCounts_yellow_counts (result : LicenseAnalysisResult)
    (component : ComponentReport) (failReason : Option String)
    (h : component.classification = Classification.yellow) :
    (updateCounts result component failReason).counts.red = result.counts.red ∧
    (updateCounts result component failReason).counts.unknown = result.counts.unknown ∧
    (updateCounts result component failReason).counts.unlicensed = result.counts.unlicensed := by
  cases failReason <;> simp [updateCounts, h]

theorem analyzeWithPolicy_append_single (index : LicensePolicyIndex)
    (failOnUnknown : Bool) (entries : List BomEntry) (entry : BomEntry) :
    analyzeWithPolicy index failOnUnknown (entries ++ [entry]) =
      analyzeStep index failOnUnknown (analyzeWithPolicy index failOnUnknown entries) entry := by
  unfold analyzeWithPolicy
  rw [List.foldl_append]
  rfl

theorem licensesOk_of_counts_eq (c₁ c₂ : LicenseCounts) (failOnUnknown : Bool)
    (hr : c₁.red = c₂.red) (hu : c₁.unknown = c₂.unknown)
    (hl : c₁.unlicensed = c₂.unlicensed) :
    licensesOk c₁ failOnUnknown = licensesOk c₂ failOnUnknown := by
  simp [licensesOk, hr, hu, hl]

/-- C2: the overall license verdict is true exactly when the prohibited (red)
count is zero and, unless `failOnUnknown` is set, regardless of the unknown
and unlicensed counts (with the flag set, those must be zero too); and a
component classified conditional (yellow) never changes the verdict of an
audit it is appended to. -/
theorem c2_overall_ok_iff :
    (∀ (counts : LicenseCounts) (failOnUnknown : Bool),
        licensesOk counts failOnUnknown = true ↔
          (counts.red = 0 ∧
            (failOnUnknown = false ∨ (counts.unknown = 0 ∧ counts.unlicensed = 0)))) ∧
    (∀ (index : LicensePolicyIndex) (failOnUnknown : Bool) (entries : List BomEntry)
        (entry : BomEntry),
        (classifyEntry index failOnUnknown entry).report.classification =
          Classification.yellow →
        licensesOk (analyzeWithPolicy index failOnUnknown (entries ++ [entry])).counts
            failOnUnknown =
          licensesOk (analyzeWithPolicy index failOnUnknown entries).counts failOnUnknown) := by
  constructor
  · intro counts failOnUnknown
    cases failOnUnknown <;> simp [licensesOk]
  · intro index failOnUnknown entries entry h
    rw [analyzeWithPolicy_append_single]
    unfold analyzeStep
    have hc := updateCounts_yellow_counts
      { (analyzeWithPolicy index failOnUnknown entries) with
        components := (analyzeWithPolicy index failOnUnknown entries).components ++
          [(classifyEntry index failOnUnknown entry).report] }
      (classifyEntry index failOnUnknown entry).report
      (classifyEntry index failOnUnknown entry).failReason h
    exact licensesOk_of_counts_eq _ _ failOnUnknown hc.1 hc.2.1 hc.2.2

/-- Witness for C2: the iff at concrete counts, and appending a component
with the conditional license `MPL-2.0` leaves the verdict unchanged. -/
theorem c2_witness :
    (licensesOk { red := 0, unknown := 2, unlicensed := 1 } false = true ↔
      ((0 : Nat) = 0 ∧ (false = false ∨ ((2 : Nat) = 0 ∧ (1 : Nat) = 0)))) ∧
    licensesOk
        (analyzeWithPolicy (buildLicenseIndex { yellow := [{ id := "MPL-2.0" }] }) false
          ([] ++ [{ key := "c", licenses := ["MPL-2.0"] }])).counts false =
      licensesOk
        (analyzeWithPolicy (buildLicenseIndex { yellow := [{ id := "MPL-2.0" }] }) false
          []).counts false :=
  ⟨c2_overall_ok_iff.1 _ _,
   c2_overall_ok_iff.2 _ _ _ _ (by decide)⟩

theorem foldl_bumpSummary_total (l : List AdvisoryFinding) :
    ∀ s : AdvisorySummary, (l.foldl bumpSummary s).total = s.total := by
  induction l with
  | nil => intro s; rfl
  | cons f t ih =>
    intro s
    rw [List.foldl_cons, ih]
    cases hf : f.severity <;> simp [bumpSummary, hf]

theorem foldl_bumpSummary_sum (l : List AdvisoryFinding) :
    ∀ s : AdvisorySummary, summarySum (l.foldl bumpSummary s) = summarySum s + l.length := by
  induction l with
  | nil => intro s; rfl
  | cons f t ih =>
    intro s
    rw [List.foldl_cons, ih]
    cases hf : f.severity <;> simp [bumpSummary, hf, summarySum] <;> omega

/-- C10: for every finding list, the summary's `total` equals the number of
input findings, and it also equals the sum of the six severity buckets —
each finding increments exactly one bucket, with any severity outside the
five named ones counted as `unknown`. -/
theorem c10_summarise_findings_conservation :
    ∀ findings : List AdvisoryFinding,
      (summariseFindings findings).total = findings.length ∧
      summarySum (summariseFindings findings) = (summariseFindings findings).total := by
  intro findings
  constructor
  · rw [summariseFindings, foldl_bumpSummary_total]
  · rw [summariseFindings, foldl_bumpSummary_sum, foldl_bumpSummary_total]
    simp [summarySum]

/-! ## Ignore-rule application lemmas -/

theorem applyIgnore_foldl (dm : DateModel) (rules : List AdvisoryIgnoreRule) :
    ∀ (findings : List AdvisoryFinding) (acc : ApplyIgnoreResult),
      findings.foldl (applyIgnoreStep dm rules) acc =
        { findings := acc.findings ++ findings.filter (keptAfterIgnore dm rules)
          ignored := acc.ignored ++ findings.filter (ignoredByIgnore dm rules)
          warnings := acc.warnings ++ findings.filterMap (ignoreWarning dm rules) } := by
  intro findings
  induction findings with
  | nil => intro acc; simp
  | cons f t ih =>
    intro acc
    rw [List.foldl_cons, ih]
    cases hm : matchedRule rules f with
    | none =>
      simp [applyIgnoreStep, hm, keptAfterIgnore, ignoredByIgnore, ignoreWarning,
        List.filter_cons, List.filterMap_cons]
    | some rule =>
      cases he : ruleExpired dm rule with
      | none =>
        simp [applyIgnoreStep, hm, he, keptAfterIgnore, ignoredByIgnore, ignoreWarning,
          List.filter_cons, List.filterMap_cons]
      | some t' =>
        simp [applyIgnoreStep, hm, he, keptAfterIgnore, ignoredByIgnore, ignoreWarning,
          List.filter_cons, List.filterMap_cons]

/-- C4: `applyIgnoreRules` decomposes per finding by its FIRST matching rule
(ids case-insensitive; an absent or empty package filter matches any package,
otherwise packages compare case-insensitively): a finding whose matching rule
has a parseable past expiry stays in the surviving `findings` and contributes
exactly one warning built from its id and package name (`ignoreWarning` is
`some (expiredWarning ...)` precisely then); a finding whose matching rule
has no expiry, an unparseable one, or an unexpired one moves to `ignored`;
an unmatched finding survives with no warning. -/
theorem c4_apply_ignore_rules_characterisation :
    ∀ (dm : DateModel) (findings : List AdvisoryFinding)
      (rules : List AdvisoryIgnoreRule),
      applyIgnoreRules dm findings rules =
        { findings := findings.filter (keptAfterIgnore dm rules)
          ignored := findings.filter (ignoredByIgnore dm rules)
          warnings := findings.filterMap (ignoreWarning dm rules) } := by
  intro dm findings rules
  by_cases hr : rules = []
  · subst hr
    have hkept : ∀ f ∈ findings, keptAfterIgnore dm [] f = true := fun f _ => rfl
    have hign : ∀ f ∈ findings, ¬ (ignoredByIgnore dm [] f = true) := by
      intro f _ h
      simp [ignoredByIgnore, matchedRule, normalisedRules] at h
    have hwarn : ∀ f ∈ findings, ignoreWarning dm [] f = none := fun f _ => rfl
    rw [applyIgnoreRules, if_pos rfl]
    rw [show (findings.filter (keptAfterIgnore dm [])) = findings from
      List.filter_eq_self.mpr hkept]
    rw [List.filter_eq_nil_iff.mpr hign, List.filterMap_eq_nil_iff.mpr hwarn]
  · rw [applyIgnoreRules, if_neg hr, applyIgnore_foldl]
    simp

/-! ## Merge lemmas -/

theorem mergeInnerFold_eq_insList (l : List AdvisoryIgnoreRule) :
    ∀ m : JsMap AdvisoryIgnoreRule,
      l.foldl (fun m entry => if entry.id = "" then m else jsSet m (mergeKey entry) entry) m =
        insList m ((l.filter (fun e => e.id ≠ "")).map (fun e => (mergeKey e, e))) := by
  induction l with
  | nil => intro m; rfl
  | cons e t ih =>
    intro m
    rw [List.foldl_cons]
    by_cases he : e.id = ""
    · rw [if_pos he, ih]
      have hfe : (e :: t).filter (fun e => e.id ≠ "") = t.filter (fun e => e.id ≠ "") := by
        simp [List.filter_cons, he]
      rw [hfe]
    · rw [if_neg he, ih]
      have hfe : (e :: t).filter (fun e => e.id ≠ "") = e :: t.filter (fun e => e.id ≠ "") := by
        simp [List.filter_cons, he]
      rw [hfe, List.map_cons]
      rfl

theorem mergePairs_cons (l : List AdvisoryIgnoreRule)
    (sets : List (List AdvisoryIgnoreRule)) :
    mergePairs (l :: sets) =
      (l.filter (fun e => e.id ≠ "")).map (fun e => (mergeKey e, e)) ++ mergePairs sets := by
  unfold mergePairs
  rw [List.flatten_cons, List.filter_append, List.map_append]

theorem mergeIgnoreRules_eq_insList (sets : List (List AdvisoryIgnoreRule)) :
    mergeIgnoreRules sets = jsValues (insList [] (mergePairs sets)) := by
  suffices h : ∀ m : JsMap AdvisoryIgnoreRule,
      sets.foldl (fun m list => list.foldl
          (fun m entry => if entry.id = "" then m else jsSet m (mergeKey entry) entry) m) m =
        insList m (mergePairs sets) by
    unfold mergeIgnoreRules
    rw [h]
  induction sets with
  | nil => intro m; rfl
  | cons l t ih =>
    intro m
    rw [List.foldl_cons, ih, mergeInnerFold_eq_insList, mergePairs_cons, insList_append]

theorem jsValues_find?_of_consistent {f : AdvisoryIgnoreRule → String} :
    ∀ (m : JsMap AdvisoryIgnoreRule) (k : String),
      (∀ p ∈ m, p.1 = f p.2) →
      (jsValues m).find? (fun v => f v == k) = jsGet m k := by
  intro m
  induction m with
  | nil => intro k _; rfl
  | cons p t ih =>
    intro k hcons
    have hp : p.1 = f p.2 := hcons p (by simp)
    by_cases hk : f p.2 = k
    · have h1 : (f p.2 == k) = true := by simp [hk]
      have h2 : (p.1 == k) = true := by simp [hp, hk]
      simp [jsValues, jsGet, List.find?, h1, h2]
    · have h1 : (f p.2 == k) = false := by simp [hk]
      have h2 : (p.1 == k) = false := by simp [hp, hk]
      have ih2 := ih k (fun q hq => hcons q (by simp [hq]))
      have hstep : (jsValues (p :: t)).find? (fun v => f v == k) =
          (jsValues t).find? (fun v => f v == k) := by
        simp [jsValues, List.find?_cons, h1]
      rw [hstep, ih2]
      simp [jsGet, List.find?_cons, h2]

theorem jsSet_consistent {f : AdvisoryIgnoreRule → String}
    (k : String) (v : AdvisoryIgnoreRule) (hkv : k = f v) :
    ∀ m : JsMap AdvisoryIgnoreRule, (∀ p ∈ m, p.1 = f p.2) →
      ∀ p ∈ jsSet m k v, p.1 = f p.2 := by
  intro m
  induction m with
  | nil =>
    intro _ p hp
    simp [jsSet] at hp
    subst hp
    exact hkv
  | cons r t ih =>
    intro hm p hp
    by_cases hr : r.1 = k
    · have hb : (r.1 == k) = true := by simp [hr]
      have hstep : jsSet (r :: t) k v = (k, v) :: t := by simp [jsSet, hb]
      rw [hstep] at hp
      rcases List.mem_cons.mp hp with h1 | h1
      · subst h1; exact hkv
      · exact hm p (by simp [h1])
    · have hb : (r.1 == k) = false := by simp [hr]
      have hstep : jsSet (r :: t) k v = r :: jsSet t k v := by simp [jsSet, hb]
      rw [hstep] at hp
      rcases List.mem_cons.mp hp with h1 | h1
      · subst h1; exact hm p (by simp)
      · exact ih (fun q hq => hm q (by simp [hq])) p h1

theorem insList_consistent {f : AdvisoryIgnoreRule → String} :
    ∀ (l : List (String × AdvisoryIgnoreRule)),
      (∀ p ∈ l, p.1 = f p.2) →
      ∀ m : JsMap AdvisoryIgnoreRule, (∀ p ∈ m, p.1 = f p.2) →
        ∀ p ∈ insList m l, p.1 = f p.2 := by
  intro l
  induction l with
  | nil => intro _ m hm; exact hm
  | cons q t ih =>
    intro hl m hm
    have hq : q.1 = f q.2 := hl q (by simp)
    exact ih (fun p hp => hl p (by simp [hp])) (jsSet m q.1 q.2)
      (jsSet_consistent q.1 q.2 hq m hm)

theorem mergePairs_consistent (sets : List (List AdvisoryIgnoreRule)) :
    ∀ p ∈ mergePairs sets, p.1 = mergeKey p.2 := by
  intro p hp
  unfold mergePairs at hp
  obtain ⟨e, _, rfl⟩ := List.mem_map.mp hp
  rfl

theorem lastFind_mergePairs (sets : List (List AdvisoryIgnoreRule)) (k : String) :
    lastFind (mergePairs sets) k =
      (sets.flatten.filter (fun e => e.id ≠ "")).reverse.find? (fun e => mergeKey e == k) := by
  unfold lastFind mergePairs
  rw [← List.map_reverse, List.find?_map]
  show (((sets.flatten.filter (fun e => e.id ≠ "")).reverse.find?
      (fun e => mergeKey e == k)).map (fun e => (mergeKey e, e))).map (fun p => p.2) = _
  cases h : (sets.flatten.filter (fun e => e.id ≠ "")).reverse.find?
      (fun e => mergeKey e == k) with
  | none => rfl
  | some e => rfl

theorem mergeIgnoreRules_find? (sets : List (List AdvisoryIgnoreRule)) (k : String) :
    (mergeIgnoreRules sets).find? (fun r => mergeKey r == k) =
      (sets.flatten.filter (fun e => e.id ≠ "")).reverse.find? (fun e => mergeKey e == k) := by
  rw [mergeIgnoreRules_eq_insList,
    jsValues_find?_of_consistent _ k
      (insList_consistent _ (mergePairs_consistent sets) [] (by simp)),
    jsGet_insList]
  rw [show jsGet ([] : JsMap AdvisoryIgnoreRule) k = none from rfl, optOr_none_right]
  exact lastFind_mergePairs sets k

/-- C5 (amended): merged ignore rules are deduplicated by the key
`UPPER(id) :: lower(packageName) | '*'` with later sources overwriting
earlier ones for the same key — the surviving rule for any key is the LAST
rule carrying that key across the concatenated sources — but the source
precedence order is: config `ignore.file` rules, then the config ignore
file, then the runtime ignore file, and finally ONE combined inline-id set
holding the config inline ids followed by the runtime inline ids; the inline
ids (config ones included) therefore rank highest, not lowest
(`resolveSets` spells out that order). -/
theorem c5_amended_merge_precedence :
    (∀ (loadFile : String → List AdvisoryIgnoreRule) (o : ResolveIgnoreOptions) (k : String),
        (resolveIgnoreRules loadFile o).find? (fun r => mergeKey r == k) =
          ((resolveSets loadFile o).flatten.filter (fun e => e.id ≠ "")).reverse.find?
            (fun e => mergeKey e == k)) ∧
    (∀ (sets : List (List AdvisoryIgnoreRule)) (k : String),
        (mergeIgnoreRules sets).find? (fun r => mergeKey r == k) =
          (sets.flatten.filter (fun e => e.id ≠ "")).reverse.find?
            (fun e => mergeKey e == k)) :=
  ⟨fun loadFile o k => mergeIgnoreRules_find? (resolveSets loadFile o) k,
   mergeIgnoreRules_find?⟩

/-- Counterexample to C5 as stated: with a config inline id `GHSA-1` and a
runtime ignore file whose rule for `GHSA-1` carries a reason, the claimed
precedence (runtime file above config inline ids) would keep the file's
rule, but the code keeps the bare inline rule: the inline-id set is pushed
last and overwrites the runtime file's rule. -/
theorem c5_counterexample :
    resolveIgnoreRules (fun _ => [{ id := "GHSA-1", reason := some "accepted risk" }])
        { configIgnoreIds := some ["GHSA-1"], runtimeFile := some "ignore.json" } =
      [{ id := "GHSA-1" }] ∧
    resolveIgnoreRulesClaimedOrder
        (fun _ => [{ id := "GHSA-1", reason := some "accepted risk" }])
        { configIgnoreIds := some ["GHSA-1"], runtimeFile := some "ignore.json" } =
      [{ id := "GHSA-1", reason := some "accepted risk" }] ∧
    resolveIgnoreRules (fun _ => [{ id := "GHSA-1", reason := some "accepted risk" }])
        { configIgnoreIds := some ["GHSA-1"], runtimeFile := some "ignore.json" } ≠
      resolveIgnoreRulesClaimedOrder
        (fun _ => [{ id := "GHSA-1", reason := some "accepted risk" }])
        { configIgnoreIds := some ["GHSA-1"], runtimeFile := some "ignore.json" } := by
  refine ⟨by decide, by decide, by decide⟩

/-- C6: `NpmAuditProvider.run` degrades gracefully — on a non-zero exit with
non-empty (trimmed) stdout it parses the JSON and returns the transformed
findings, recording the trimmed stderr as a warning when present (partial
success); on a non-zero exit with empty stdout it throws an `npm audit
failed` error; and whenever stdout is parsed and parsing fails it throws an
error carrying the underlying parse error message. -/
theorem c6_npm_audit_run_error_handling :
    ∀ (parseOutput : String → Except String NpmAuditOutput) (code : Int)
      (stdoutText stderrText : String),
      (code ≠ 0 → jsTrim stdoutText ≠ "" →
        ∀ output, parseOutput stdoutText = .ok output →
        npmAuditRun parseOutput code stdoutText stderrText =
          .ok { findings := npmTransform output,
                warnings :=
                  if jsTrim stderrText = "" then [] else [jsTrim stderrText] }) ∧
      (code ≠ 0 → jsTrim stdoutText = "" →
        npmAuditRun parseOutput code stdoutText stderrText =
          .error ("npm audit failed: " ++
            (if jsTrim stderrText = "" then "exit code " ++ toString code
             else jsTrim stderrText))) ∧
      (jsTrim stdoutText ≠ "" → ∀ msg, parseOutput stdoutText = .error msg →
        npmAuditRun parseOutput code stdoutText stderrText =
          .error ("Failed to parse npm audit output: " ++ msg)) := by
  intro parseOutput code stdoutText stderrText
  refine ⟨?_, ?_, ?_⟩
  · intro hc hs output hp
    unfold npmAuditRun
    rw [if_neg (fun h => hs h.2), if_neg hs, hp]
    by_cases he : jsTrim stderrText = "" <;> simp [he, hc]
  · intro hc hs
    unfold npmAuditRun
    rw [if_pos ⟨hc, hs⟩]
  · intro hs msg hp
    unfold npmAuditRun
    rw [if_neg (fun h => hs h.2), if_neg hs, hp]

/-- Witness for C6 at concrete runs: a non-zero exit with parseable stdout
and noisy stderr is a partial success with one warning; a non-zero exit with
blank stdout fails hard; a parse failure reports the parse error. -/
theorem c6_witness :
    npmAuditRun (fun _ => Except.ok { advisories := [] }) 1 "{}" " EBADENGINE " =
      Except.ok { findings := [], warnings := ["EBADENGINE"] } ∧
    npmAuditRun (fun _ => Except.ok { advisories := [] }) 1 "  " "" =
      Except.error "npm audit failed: exit code 1" ∧
    npmAuditRun (fun _ => Except.error "Unexpected token") 0 "garbage" "" =
      Except.error "Failed to parse npm audit output: Unexpected token" :=
  ⟨((c6_npm_audit_run_error_handling (fun _ => Except.ok { advisories := [] })
      1 "{}" " EBADENGINE ").1 (by decide) (by decide) _ rfl).trans
      (congrArg Except.ok (by decide)),
   ((c6_npm_audit_run_error_handling (fun _ => Except.ok { advisories := [] })
      1 "  " "").2.1 (by decide) (by decide)).trans
      (congrArg Except.error (by decide)),
   ((c6_npm_audit_run_error_handling (fun _ => Except.error "Unexpected token")
      0 "garbage" "").2.2 (by decide) _ rfl).trans
      (congrArg Except.error (by decide))⟩

/-! ## Security pipeline lemmas -/

theorem applyIgnoreRules_nil (dm : DateModel) (rules : List AdvisoryIgnoreRule) :
    applyIgnoreRules dm [] rules = {} := by
  unfold applyIgnoreRules
  by_cases h : rules = [] <;> simp [h]

/-- Counterexample to C7 as stated: the advisory provider invocation fails
(`Except.error`), yet the security tool's `exec` returns a NON-error report
with `ok = true`, zero findings and the provider error demoted to a warning
— the external-dependency failure is silently replaced with empty data
rather than reported as a fatal failure of the request. -/
theorem c7_counterexample :
    securityExec { parse := fun _ => none, toISO := fun _ => "", now := 0 }
        (some (Except.ok ())) true
        (Except.error "npm audit failed: spawn npm ENOENT") false []
        AdvisorySeverity.high =
      SecurityResponse.report true {} [] [] ["npm audit failed: spawn npm ENOENT"] [] := by
  rfl

/-- C7 (amended): SBOM acquisition errors (missing or unreadable SBOM file,
failed generation) abort the request as a fatal error; a missing ignore file
loads as an empty rule list while any other ignore-file read or parse
failure is fatal naming the resolved path; but a failed advisory provider
invocation is NOT fatal — its message is recorded as a warning and the audit
completes with that provider's findings omitted (succeeding outright), and
it aborts only when no findings were produced and `failOnUnscanned` is set. -/
theorem c7_amended_error_handling :
    (∀ (dm : DateModel) (runNpm : Bool)
        (providerResult : Except String ProviderRunPayload)
        (failOnUnscanned : Bool) (ignoreRules : List AdvisoryIgnoreRule)
        (threshold : AdvisorySeverity) (msg : String),
        securityExec dm (some (Except.error msg)) runNpm providerResult
            failOnUnscanned ignoreRules threshold =
          SecurityResponse.fatal msg) ∧
    (∀ (dm : DateModel) (msg : String) (ignoreRules : List AdvisoryIgnoreRule)
        (threshold : AdvisorySeverity),
        securityExec dm (some (Except.ok ())) true (Except.error msg) false
            ignoreRules threshold =
          SecurityResponse.report true {} [] [] [msg] []) ∧
    (∀ (dm : DateModel) (msg : String) (ignoreRules : List AdvisoryIgnoreRule)
        (threshold : AdvisorySeverity),
        securityExec dm (some (Except.ok ())) true (Except.error msg) true
            ignoreRules threshold =
          SecurityResponse.fatal
            "No scanners produced results. Verify tooling configuration or project manifests.") ∧
    (∀ (resolveP : String → String) (readF : String → Except FsError String)
        (parseJson : String → Except String Json) (filePath : String),
        readF (resolveP filePath) = .error .enoent →
        loadIgnoreRules resolveP readF parseJson filePath = .ok []) ∧
    (∀ (resolveP : String → String) (readF : String → Except FsError String)
        (parseJson : String → Except String Json) (filePath msg : String),
        readF (resolveP filePath) = .error (.other msg) →
        loadIgnoreRules resolveP readF parseJson filePath =
          .error ("Failed to read advisory ignore file at " ++ resolveP filePath ++
            ": " ++ msg)) ∧
    (∀ (resolveP : String → String) (readF : String → Except FsError String)
        (parseJson : String → Except String Json) (filePath text msg : String),
        readF (resolveP filePath) = .ok text →
        parseJson text = .error msg →
        loadIgnoreRules resolveP readF parseJson filePath =
          .error ("Failed to read advisory ignore file at " ++ resolveP filePath ++
            ": " ++ msg)) := by
  refine ⟨?_, ?_, ?_, ?_, ?_, ?_⟩
  · intro dm runNpm providerResult failOnUnscanned ignoreRules threshold msg
    rfl
  · intro dm msg ignoreRules threshold
    unfold securityExec
    simp [applyIgnoreRules_nil, summariseFindings]
  · intro dm msg ignoreRules threshold
    rfl
  · intro resolveP readF parseJson filePath h
    simp only [loadIgnoreRules]
    rw [h]
  · intro resolveP readF parseJson filePath msg h
    simp only [loadIgnoreRules]
    rw [h]
  · intro resolveP readF parseJson filePath text msg h hp
    simp only [loadIgnoreRules]
    rw [h]
    simp [hp]

set_option maxHeartbeats 1000000 in
/-- Witness for C7 (amended) at concrete inputs covering each clause. -/
theorem c7_witness :
    securityExec { parse := fun _ => none, toISO := fun _ => "", now := 0 }
        (some (Except.error "SBOM file not found: /tmp/bom.json")) true
        (Except.ok {}) false [] AdvisorySeverity.high =
      SecurityResponse.fatal "SBOM file not found: /tmp/bom.json" ∧
    securityExec { parse := fun _ => none, toISO := fun _ => "", now := 0 }
        (some (Except.ok ())) true (Except.error "npm audit failed") false
        [{ id := "GHSA-9" }] AdvisorySeverity.high =
      SecurityResponse.report true {} [] [] ["npm audit failed"] [] ∧
    securityExec { parse := fun _ => none, toISO := fun _ => "", now := 0 }
        (some (Except.ok ())) true (Except.error "npm audit failed") true
        [] AdvisorySeverity.high =
      SecurityResponse.fatal
        "No scanners produced results. Verify tooling configuration or project manifests." ∧
    loadIgnoreRules (fun s => s) (fun _ => Except.error FsError.enoent)
        (fun _ => Except.ok Json.null) "/tmp/ignore.json" = Except.ok [] ∧
    loadIgnoreRules (fun s => s) (fun _ => Except.error (FsError.other "EACCES"))
        (fun _ => Except.ok Json.null) "/tmp/ignore.json" =
      Except.error "Failed to read advisory ignore file at /tmp/ignore.json: EACCES" ∧
    loadIgnoreRules (fun s => s) (fun _ => Except.ok "not json")
        (fun _ => Except.error "Unexpected token") "/tmp/ignore.json" =
      Except.error "Failed to read advisory ignore file at /tmp/ignore.json: Unexpected token" :=
  ⟨c7_amended_error_handling.1 _ _ _ _ _ _ _,
   c7_amended_error_handling.2.1 _ _ _ _,
   c7_amended_error_handling.2.2.1 _ _ _ _,
   c7_amended_error_handling.2.2.2.1 (fun s => s) (fun _ => Except.error FsError.enoent)
     (fun _ => Except.ok Json.null) "/tmp/ignore.json" rfl,
   (c7_amended_error_handling.2.2.2.2.1 (fun s => s)
       (fun _ => Except.error (FsError.other "EACCES"))
       (fun _ => Except.ok Json.null) "/tmp/ignore.json" "EACCES" rfl).trans
     (congrArg Except.error (by decide)),
   (c7_amended_error_handling.2.2.2.2.2 (fun s => s) (fun _ => Except.ok "not json")
       (fun _ => Except.error "Unexpected token") "/tmp/ignore.json" "not json"
       "Unexpected token" rfl rfl).trans
     (congrArg Except.error (by decide))⟩

/-- Counterexample to C9 as stated: `getLicenses` returns a fresh array but
the entry objects inside are the stored ones (address 0 below is shared), so
a caller mutating a nested field of a returned entry changes what every
subsequent accessor call observes — the stored configuration is corrupted. -/
theorem c9_counterexample :
    0 ∈ getLicensesRefs { green := [0] } LicenseCategory.green ∧
    storedLicenses
        (mutateEntry { entries := fun _ => { id := "MIT" } } 0
          { id := "MIT", notes := some "tampered" })
        { green := [0] } LicenseCategory.green ≠
      storedLicenses { entries := fun _ => { id := "MIT" } } { green := [0] }
        LicenseCategory.green := by
  refine ⟨by decide, by decide⟩

/-- C9 (amended): the accessor's defensive copy is shallow. `getLicenses`
returns a fresh array whose elements are exactly the stored entry
references, so a caller mutating an entry object not referenced by the store
leaves every subsequent accessor result unchanged, while mutating a shared
entry object changes the stored view precisely at the shared addresses. -/
theorem c9_amended_shallow_copy :
    (∀ (h : LicenseHeap) (c : ConfigLicensesRefs) (category : LicenseCategory)
        (a : Nat) (e : LicenseEntry),
        a ∉ bucketRefs c category →
        storedLicenses (mutateEntry h a e) c category = storedLicenses h c category) ∧
    (∀ (c : ConfigLicensesRefs) (category : LicenseCategory),
        getLicensesRefs c category = bucketRefs c category) ∧
    (∀ (h : LicenseHeap) (c : ConfigLicensesRefs) (category : LicenseCategory)
        (a : Nat) (e : LicenseEntry),
        storedLicenses (mutateEntry h a e) c category =
          (bucketRefs c category).map (fun x => if x = a then e else h.entries x)) := by
  refine ⟨?_, fun _ _ => rfl, fun _ _ _ _ _ => rfl⟩
  intro h c category a e ha
  unfold storedLicenses
  apply List.map_congr_left
  intro x hx
  show (if x = a then e else h.entries x) = h.entries x
  rw [if_neg]
  intro hxa
  exact ha (hxa ▸ hx)

/-- Witness for C9 (amended): mutating an entry object outside the stored
bucket leaves the stored view unchanged. -/
theorem c9_witness :
    storedLicenses
        (mutateEntry { entries := fun _ => { id := "MIT" } } 5 { id := "HACKED" })
        { green := [0] } LicenseCategory.green =
      storedLicenses { entries := fun _ => { id := "MIT" } } { green := [0] }
        LicenseCategory.green :=
  c9_amended_shallow_copy.1 _ _ _ _ _ (by decide)
